import Mathlib

/-
Verification of the existons cellular automaton core: a shallow embedding of
the tristate scalar algebra (ga_core.rs), the multivector geometric product,
the Existon lifecycle (existon.rs) and the Universe step protocol
(universe.rs), together with theorems settling the specified properties.

Randomness in the source (the ambient rand generator) is modelled by explicit
oracle arguments: every Bernoulli draw becomes a Bool supplied by the caller
and every freshly sampled multivector becomes a coefficient stream supplied by
the caller. A Bernoulli trial with probability zero never succeeds, which is
the only probabilistic fact the source relies on; it is reflected in the
bernoulli function below. The f64 rate parameters are modelled as rationals,
faithful for every comparison the code performs on them.
-/

--================================================================================
-- Mod3, from src/ga_core.rs
--================================================================================

/-- Tristate scalar value, struct Mod3(i8) in ga_core.rs. -/
structure Mod3 where
  val : Int
deriving DecidableEq, Repr

/-- Mod3::new normalizes any integer to its sign. -/
def Mod3.new (v : Int) : Mod3 :=
  ⟨v.sign⟩

/-- The wrapping addition of impl Add for Mod3: sums above 1 wrap to -1, sums
below -1 wrap to 1. -/
def Mod3.add (a b : Mod3) : Mod3 :=
  let sum := a.val + b.val
  if sum > 1 then ⟨-1⟩
  else if sum < -1 then ⟨1⟩
  else ⟨sum⟩

/-- Ordinary multiplication of impl Mul for Mod3. -/
def Mod3.mul (a b : Mod3) : Mod3 :=
  ⟨a.val * b.val⟩

/-- A Mod3 value produced by normalization: the representation invariant of
the source type. -/
def Mod3.inRange (a : Mod3) : Prop :=
  a.val = -1 ∨ a.val = 0 ∨ a.val = 1

instance (a : Mod3) : Decidable (Mod3.inRange a) := by
  unfold Mod3.inRange; infer_instance

--================================================================================
-- Multivector, from src/ga_core.rs
--================================================================================

/-- Structural helper for popCount: the first argument is fuel bounding the
recursion depth, so the kernel can evaluate the function. -/
def popCountFuel : Nat → Nat → Nat
  | 0, _ => 0
  | _ + 1, 0 => 0
  | fuel + 1, m + 1 => popCountFuel fuel ((m + 1) / 2) + (m + 1) % 2

/-- Number of set bits, matching u32 count_ones in the source: n itself
bounds the number of halvings needed. -/
def popCount (n : Nat) : Nat :=
  popCountFuel n n

/-- A multivector of the algebra Cl(p,0) over Mod3: 2 ^ p blade coefficients,
blade index read as a bitmask of basis vectors. -/
structure Multivector where
  p : Nat
  coefficients : List Mod3
deriving DecidableEq, Repr

/-- Multivector::zero. -/
def Multivector.zero (p : Nat) : Multivector :=
  ⟨p, List.replicate (2 ^ p) (Mod3.new 0)⟩

/-- Multivector::random: each coefficient is one oracle draw normalized by
Mod3::new, exactly as the source normalizes random_range(-1..=1). -/
def Multivector.random (p : Nat) (draw : Nat → Int) : Multivector :=
  ⟨p, (List.range (2 ^ p)).map (fun i => Mod3.new (draw i))⟩

/-- Coefficient lookup. The source indexes the Vec directly; indices are
always below the length 2 ^ p there, so the default is never consulted on the
paths the source takes. -/
def Multivector.coeff (m : Multivector) (i : Nat) : Mod3 :=
  m.coefficients.getD i ⟨0⟩

/-- Componentwise addition of impl Add for &Multivector: result slot i is the
Mod3 sum of the two slot-i coefficients. -/
def Multivector.add (a b : Multivector) : Multivector :=
  ⟨a.p, (List.range (2 ^ a.p)).map (fun i => Mod3.add (a.coeff i) (b.coeff i))⟩

/-- The sign-flip count of the geometric product: for each basis vector
present in blade j, the number of basis vectors of blade i with a strictly
higher index, summed over the loop for bit_j in 0..p of the source. -/
def signFlips (p i j : Nat) : Nat :=
  (List.range p).foldl
    (fun acc k =>
      if (j >>> k) &&& 1 ≠ 0 then acc + popCount (i >>> (k + 1)) else acc) 0

/-- One iteration of the inner loop of impl Mul for &Multivector: given the
outer blade i, fold over all blades j of b, skipping zero coefficients,
accumulating a.coeff i * b.coeff j * sign into result slot i xor j. -/
def gpInner (p : Nat) (a b : Multivector) (i : Nat) (acc : List Mod3) : List Mod3 :=
  (List.range (2 ^ p)).foldl
    (fun acc2 j =>
      if (b.coeff j).val = 0 then acc2
      else
        let blade := i ^^^ j
        let sign : Int := if signFlips p i j % 2 = 0 then 1 else -1
        acc2.set blade
          (Mod3.add (acc2.getD blade ⟨0⟩)
            (Mod3.mul (Mod3.mul (a.coeff i) (b.coeff j)) (Mod3.new sign)))) acc

/-- The geometric product of impl Mul for &Multivector: double loop over the
blades of a then b in increasing index order, skipping zero coefficients,
starting from the zero multivector. The source asserts equal p of the two
operands; as there, all sizes are taken from the left operand. -/
def Multivector.mul (a b : Multivector) : Multivector :=
  ⟨a.p,
    (List.range (2 ^ a.p)).foldl
      (fun acc i => if (a.coeff i).val = 0 then acc else gpInner a.p a b i acc)
      (List.replicate (2 ^ a.p) (Mod3.new 0))⟩

/-- A multivector that is zero except for the value v at blade index b. -/
def Multivector.basisBlade (p b : Nat) (v : Mod3) : Multivector :=
  ⟨p, (List.replicate (2 ^ p) (Mod3.new 0)).set b v⟩

--================================================================================
-- C1: commutativity and associativity of Mod3 addition
--================================================================================

/-- The three normalized Mod3 values. -/
def mod3Elems : List Mod3 :=
  [⟨-1⟩, ⟨0⟩, ⟨1⟩]

/-- C1 counterexample: the claim asserts a triple a, b, c drawn from the three
values -1, 0, 1 with add (add a b) c different from add a (add b c); checking
all 27 triples shows no such triple exists, because the wrapping addition is
exactly addition modulo 3 and hence associative on normalized values. -/
theorem C1_counterexample :
    (mod3Elems.all fun a => mod3Elems.all fun b => mod3Elems.all fun c =>
      Mod3.add (Mod3.add a b) c == Mod3.add a (Mod3.add b c)) = true := by
  decide

/-- C1 (amended): scalar add is commutative, and, contrary to the frozen
claim, it is also associative on the normalized values -1, 0, 1: for every
such triple, add (add a b) c equals add a (add b c). -/
theorem C1_thm :
    (∀ a b : Mod3, Mod3.add a b = Mod3.add b a) ∧
    (∀ a b c : Mod3, a.inRange → b.inRange → c.inRange →
      Mod3.add (Mod3.add a b) c = Mod3.add a (Mod3.add b c)) := by
  constructor
  · intro a b
    show Mod3.add a b = Mod3.add b a
    unfold Mod3.add
    have h : a.val + b.val = b.val + a.val := by omega
    simp only [h]
  · intro a b c ha hb hc
    rcases a with ⟨av⟩
    rcases b with ⟨bv⟩
    rcases c with ⟨cv⟩
    rcases ha with h | h | h <;> subst h <;>
      rcases hb with h | h | h <;> subst h <;>
        rcases hc with h | h | h <;> subst h <;> decide

/-- Witness for C1_thm at concrete inputs. -/
theorem C1_witness :
    Mod3.add (Mod3.mk 1) (Mod3.mk (-1)) = Mod3.add (Mod3.mk (-1)) (Mod3.mk 1) ∧
    Mod3.add (Mod3.add (Mod3.mk 1) (Mod3.mk 1)) (Mod3.mk 1)
      = Mod3.add (Mod3.mk 1) (Mod3.add (Mod3.mk 1) (Mod3.mk 1)) :=
  ⟨C1_thm.1 ⟨1⟩ ⟨-1⟩, C1_thm.2 ⟨1⟩ ⟨1⟩ ⟨1⟩ (by decide) (by decide) (by decide)⟩

--================================================================================
-- List helper lemmas
--================================================================================

/-- A fold whose step ignores every element of the list returns its start. -/
theorem listFoldlIdOfMem {α β : Type} (l : List α) (g : β → α → β) (b : β)
    (h : ∀ acc x, x ∈ l → g acc x = acc) : l.foldl g b = b := by
  induction l generalizing b with
  | nil => rfl
  | cons a t ih =>
    rw [List.foldl_cons, h b a (by simp)]
    exact ih b fun acc x hx => h acc x (by simp [hx])

/-- A fold over the range of N whose step acts only at the single index t
below N is that single action. -/
theorem listFoldlRangeSingle {β : Type} (g : β → Nat → β) (t N : Nat) (ht : t < N)
    (h : ∀ acc x, x ≠ t → g acc x = acc) (b : β) :
    (List.range N).foldl g b = g b t := by
  induction N with
  | zero => omega
  | succ n ih =>
    rw [List.range_succ, List.foldl_append, List.foldl_cons, List.foldl_nil]
    rcases Nat.lt_or_ge t n with h1 | h1
    · rw [ih h1, h (g b t) n (by omega)]
    · have ht2 : t = n := by omega
      subst ht2
      rw [listFoldlIdOfMem _ g b fun acc x hx => h acc x (by
        have hlt := List.mem_range.mp hx
        omega)]

/-- getD of a replicate at its own fill value. -/
theorem listGetDReplicate {α : Type} (n i : Nat) (x : α) :
    (List.replicate n x).getD i x = x := by
  induction n generalizing i with
  | zero => simp [List.getD]
  | succ m ih =>
    cases i with
    | zero => simp [List.replicate]
    | succ k => rw [List.replicate_succ]; exact ih k

/-- getD after set at the written position. -/
theorem listGetDSetSelf {α : Type} (l : List α) (i : Nat) (v d : α)
    (h : i < l.length) : (l.set i v).getD i d = v := by
  induction l generalizing i with
  | nil => simp at h
  | cons a t ih =>
    cases i with
    | zero => rfl
    | succ k => simpa using ih k (by simpa using h)

/-- getD after set at any other position. -/
theorem listGetDSetNe {α : Type} (l : List α) (i j : Nat) (v d : α)
    (h : i ≠ j) : (l.set i v).getD j d = l.getD j d := by
  induction l generalizing i j with
  | nil => rfl
  | cons a t ih =>
    cases i with
    | zero => cases j with
      | zero => exact absurd rfl h
      | succ k => rfl
    | succ m => cases j with
      | zero => rfl
      | succ k => exact ih m k (by omega)

/-- Length is unchanged by set. -/
theorem listLengthSet {α : Type} (l : List α) (i : Nat) (v : α) :
    (l.set i v).length = l.length :=
  List.length_set ..

--================================================================================
-- C4: a basis vector squares to the unit scalar
--================================================================================

/-- Normalizing zero gives the zero scalar. -/
theorem mod3_new_zero : Mod3.new 0 = ⟨0⟩ := by decide

/-- Coefficient of the single-blade multivector. -/
theorem basisBlade_coeff (p b : Nat) (v : Mod3) (hb : b < 2 ^ p) (i : Nat) :
    (Multivector.basisBlade p b v).coeff i = if i = b then v else ⟨0⟩ := by
  unfold Multivector.basisBlade Multivector.coeff
  simp only [mod3_new_zero]
  by_cases h : i = b
  · subst h
    rw [if_pos rfl, listGetDSetSelf _ _ _ _ (by simpa using hb)]
  · rw [if_neg h, listGetDSetNe _ _ _ _ _ (fun hc => h hc.symm), listGetDReplicate]

/-- popCount of zero. -/
theorem popCount_zero : popCount 0 = 0 :=
  rfl

/-- The sign-flip count of a grade-one blade against itself is zero: the only
basis vector of the blade has no higher-indexed companion to move past. -/
theorem signFlips_pow_self (p k : Nat) : signFlips p (2 ^ k) (2 ^ k) = 0 := by
  unfold signFlips
  apply listFoldlIdOfMem
  intro acc m _
  by_cases hmk : m = k
  · subst hmk
    have h1 : (2 ^ m) >>> (m + 1) = 0 := by
      rw [Nat.shiftRight_eq_div_pow]
      exact Nat.div_eq_of_lt (Nat.pow_lt_pow_right (by omega) (by omega))
    simp [h1, popCount_zero]
  · have hzero : (2 ^ k) >>> m &&& 1 = 0 := by
      rw [Nat.shiftRight_eq_div_pow, Nat.and_one_is_mod]
      rcases Nat.lt_or_ge m k with hmlt | hmge
      · have hdiv : 2 ^ k / 2 ^ m = 2 ^ (k - m) := by
          rw [Nat.pow_div (by omega) (by omega)]
        rw [hdiv]
        have hk1 : k - m = (k - m - 1) + 1 := by omega
        rw [hk1, pow_succ]
        exact Nat.mul_mod_left _ 2
      · have hmk2 : k < m := by omega
        have hdiv : 2 ^ k / 2 ^ m = 0 :=
          Nat.div_eq_of_lt (Nat.pow_lt_pow_right (by omega) hmk2)
        rw [hdiv]
    simp [hzero]

/-- C4: for every dimension count p and every k below p, the geometric
product of the pure basis-vector multivector with coefficient one at blade
2 ^ k with itself is the pure scalar multivector with coefficient one at
blade zero and zero elsewhere. -/
theorem C4_thm (p k : Nat) (hk : k < p) :
    Multivector.mul (Multivector.basisBlade p (2 ^ k) ⟨1⟩)
      (Multivector.basisBlade p (2 ^ k) ⟨1⟩) = Multivector.basisBlade p 0 ⟨1⟩ := by
  have hb : 2 ^ k < 2 ^ p := Nat.pow_lt_pow_right (by omega) hk
  have hcoeff := basisBlade_coeff p (2 ^ k) ⟨1⟩ hb
  have hp : (Multivector.basisBlade p (2 ^ k) (⟨1⟩ : Mod3)).p = p := rfl
  unfold Multivector.mul
  simp only [hp]
  rw [listFoldlRangeSingle _ (2 ^ k) (2 ^ p) hb
    (fun acc x hx => by rw [hcoeff x, if_neg hx]; simp)]
  rw [hcoeff (2 ^ k), if_pos rfl]
  simp only [show ((⟨1⟩ : Mod3).val = 0) = False by simp, if_false]
  unfold gpInner
  rw [listFoldlRangeSingle _ (2 ^ k) (2 ^ p) hb
    (fun acc x hx => by rw [hcoeff x, if_neg hx]; simp)]
  rw [hcoeff (2 ^ k), if_pos rfl]
  simp only [show ((⟨1⟩ : Mod3).val = 0) = False by simp, if_false,
    Nat.xor_self, signFlips_pow_self, Nat.zero_mod, if_pos rfl]
  rw [show (Mod3.new 0) = (⟨0⟩ : Mod3) from mod3_new_zero, listGetDReplicate]
  unfold Multivector.basisBlade
  rw [show (Mod3.new 0) = (⟨0⟩ : Mod3) from mod3_new_zero]
  congr 1

/-- Witness for C4_thm at p = 2, k = 1. -/
theorem C4_witness :
    Multivector.mul (Multivector.basisBlade 2 (2 ^ 1) ⟨1⟩)
      (Multivector.basisBlade 2 (2 ^ 1) ⟨1⟩) = Multivector.basisBlade 2 0 ⟨1⟩ :=
  C4_thm 2 1 (by decide)

--================================================================================
-- Existon, from src/existon.rs
--================================================================================

/-- The three consciousness phases of an Existon. -/
inductive ConsciousnessState where
  | Potential
  | Observed
  | Operator
deriving DecidableEq, Repr

/-- The Existon: id, phase and multivector state. -/
structure Existon where
  id : Nat
  consciousness : ConsciousnessState
  state : Multivector
deriving DecidableEq, Repr

/-- Existon::new: phase Potential and a freshly drawn random state, the draw
supplied by the oracle stream. -/
def Existon.new (id p : Nat) (draw : Nat → Int) : Existon :=
  ⟨id, ConsciousnessState.Potential, Multivector.random p draw⟩

/-- Existon::observe: from Potential, move to Observed and zero every
coefficient whose blade index has two or more set bits; otherwise no-op.
The in-place index loop of the source writes each slot at most once, so it
is rendered as a map over the index range. -/
def Existon.observe (e : Existon) : Existon :=
  if e.consciousness = ConsciousnessState.Potential then
    { e with
        consciousness := ConsciousnessState.Observed,
        state := ⟨e.state.p,
          (List.range e.state.coefficients.length).map fun i =>
            if 2 ≤ popCount i then Mod3.new 0 else e.state.coefficients.getD i ⟨0⟩⟩ }
  else e

/-- Existon::decay: from Observed, move back to Potential with a fresh random
state of the same p; otherwise no-op. -/
def Existon.decay (e : Existon) (draw : Nat → Int) : Existon :=
  if e.consciousness = ConsciousnessState.Observed then
    { e with
        consciousness := ConsciousnessState.Potential,
        state := Multivector.random e.state.p draw }
  else e

--================================================================================
-- C6: observe is idempotent and collapses exactly the high grades
--================================================================================

/-- getD of a map over a range. -/
theorem listGetDMapRange {α : Type} (n : Nat) (f : Nat → α) (i : Nat) (d : α) :
    ((List.range n).map f).getD i d = if i < n then f i else d := by
  rcases Nat.lt_or_ge i n with h | h
  · rw [if_pos h]
    rw [List.getD_eq_getElem?_getD, List.getElem?_map, List.getElem?_range h]
    rfl
  · rw [if_neg (by omega)]
    rw [List.getD_eq_getElem?_getD, List.getElem?_eq_none (by simpa using h)]
    rfl

/-- observe leaves a non-Potential cell untouched. -/
theorem observe_no_op (e : Existon)
    (h : ¬ e.consciousness = ConsciousnessState.Potential) :
    Existon.observe e = e := by
  rw [Existon.observe, if_neg h]

/-- C6: observe is idempotent, and on a Potential cell it zeroes exactly the
coefficients at blade indices of grade at least two, leaving grade zero and
grade one coefficients unchanged. -/
theorem C6_thm :
    (∀ e : Existon, Existon.observe (Existon.observe e) = Existon.observe e) ∧
    (∀ e : Existon, e.consciousness = ConsciousnessState.Potential → ∀ i : Nat,
      (2 ≤ popCount i → (Existon.observe e).state.coeff i = ⟨0⟩) ∧
      (popCount i < 2 → (Existon.observe e).state.coeff i = e.state.coeff i)) := by
  constructor
  · intro e
    by_cases h : e.consciousness = ConsciousnessState.Potential
    · have h2 : (Existon.observe e).consciousness = ConsciousnessState.Observed := by
        rw [Existon.observe, if_pos h]
      exact observe_no_op (Existon.observe e) (by rw [h2]; intro hx; cases hx)
    · rw [observe_no_op e h, observe_no_op e h]
  · intro e h i
    rw [Existon.observe, if_pos h]
    unfold Multivector.coeff
    simp only
    rw [listGetDMapRange]
    rcases Nat.lt_or_ge i e.state.coefficients.length with hi | hi
    · rw [if_pos hi]
      constructor
      · intro hpc
        rw [if_pos hpc, mod3_new_zero]
      · intro hpc
        rw [if_neg (by omega)]
    · rw [if_neg (by omega)]
      constructor
      · intro _
        rfl
      · intro _
        rw [List.getD_eq_getElem?_getD, List.getElem?_eq_none (by omega)]
        rfl

/-- A concrete Potential Existon used by witnesses: p = 2, one coefficient at
every grade. -/
def exA : Existon :=
  ⟨7, ConsciousnessState.Potential, ⟨2, [⟨1⟩, ⟨1⟩, ⟨-1⟩, ⟨1⟩]⟩⟩

/-- Witness for C6_thm at a concrete cell: observing twice equals observing
once, the grade-two coefficient at blade 3 collapses to zero, and the
grade-one coefficient at blade 1 is untouched. -/
theorem C6_witness :
    (Existon.observe (Existon.observe exA) = Existon.observe exA) ∧
    (Existon.observe exA).state.coeff 3 = ⟨0⟩ ∧
    (Existon.observe exA).state.coeff 1 = exA.state.coeff 1 :=
  ⟨C6_thm.1 exA,
   (C6_thm.2 exA (by decide) 3).1 (by decide),
   (C6_thm.2 exA (by decide) 1).2 (by decide)⟩

--================================================================================
-- Universe, from src/universe.rs
--================================================================================

/-- One Bernoulli trial of rand random_bool: a trial with probability zero
never succeeds; for a positive rate the outcome is the oracle draw. -/
def bernoulliTrial (rate : ℚ) (draw : Bool) : Bool :=
  if rate = 0 then false else draw

/-- The oracle draws one grid cell may consume during a tick: the Bernoulli
outcomes for the observation, fluctuation and decay trials, and the
coefficient stream of any fresh random multivector drawn for the cell. -/
structure CellRand where
  obsDraw : Bool
  flucDraw : Bool
  decayDraw : Bool
  freshState : Nat → Int

/-- Default cell for out-of-range list reads; the source indexes within
bounds on every path, so this value is never consulted there. -/
def blankExiston : Existon :=
  ⟨0, ConsciousnessState.Potential, Multivector.zero 0⟩

/-- The simulation space, struct Universe in universe.rs. The f64 rates are
modelled as rationals. -/
structure Universe where
  ga_dims : Nat
  grid_dims : List Nat
  grid : List Existon
  entangled_pairs : List (Nat × Nat)
  observation_rate : ℚ
  decay_rate : ℚ
  entanglement_percentage : ℚ
  fluctuation_rate : ℚ
deriving DecidableEq

/-- Lookup in the entangled-pair map, modelling HashMap get: the value of
the first binding for the key. -/
def mapLookup (m : List (Nat × Nat)) (k : Nat) : Option Nat :=
  (m.find? fun kv => kv.1 == k).map fun kv => kv.2

/-- Insert in the entangled-pair map, modelling HashMap insert: the new
binding replaces any previous binding of the same key. -/
def mapInsert (m : List (Nat × Nat)) (k v : Nat) : List (Nat × Nat) :=
  (k, v) :: m.filter fun kv => kv.1 ≠ k

/-- Vec pop: removes and returns the last element. -/
def popLast (l : List Nat) : Option (Nat × List Nat) :=
  match l.getLast? with
  | none => none
  | some x => some (x, l.dropLast)

/-- The pair count of generate_entangled_pairs: size * percentage / 2
truncated to an integer, as the f64 to usize cast does. -/
def numPairsOf (size : Nat) (percentage : ℚ) : Nat :=
  (⌊(size : ℚ) * percentage / 2⌋).toNat

/-- The pairing loop of generate_entangled_pairs: up to n times, pop two ids
off the end of the available list and record them as mutual partners. -/
def genPairsAux : Nat → List Nat → List (Nat × Nat) → List (Nat × Nat)
  | 0, _, m => m
  | n + 1, avail, m =>
    if avail.length < 2 then m
    else
      match popLast avail with
      | none => m
      | some (id1, rest1) =>
        match popLast rest1 with
        | none => m
        | some (id2, rest2) =>
          genPairsAux n rest2 (mapInsert (mapInsert m id1 id2) id2 id1)

/-- Universe::generate_entangled_pairs: the shuffled argument is the oracle
for the uniform shuffle of the ids 0..size the source performs. -/
def Universe.generate_entangled_pairs (size : Nat) (percentage : ℚ)
    (shuffled : List Nat) : List (Nat × Nat) :=
  genPairsAux (numPairsOf size percentage) shuffled []

/-- Universe::new with the default parameters of the source; draws and
shuffled are the randomness oracles for the initial cell states and the
initial entangled pairs. -/
def Universe.new (grid_dims : List Nat) (ga_dims : Nat)
    (draws : Nat → Nat → Int) (shuffled : List Nat) : Universe :=
  let size := grid_dims.prod
  { ga_dims := ga_dims
    grid_dims := grid_dims
    grid := (List.range size).map fun i => Existon.new i ga_dims (draws i)
    entangled_pairs := Universe.generate_entangled_pairs size (1 / 20) shuffled
    observation_rate := 1 / 2000
    decay_rate := 1 / 100
    entanglement_percentage := 1 / 20
    fluctuation_rate := 1 / 1000 }

/-- The stride loop of get_index_from_coord, rendered recursively: the flat
index of coord c0 :: cs in extents d0 :: ds is c0 + d0 * index of cs in ds,
which is the sum of c_k times the product of the extents before position k;
any out-of-range component yields no index. -/
def encodeAux : List Nat → List Nat → Option Nat
  | [], [] => some 0
  | c :: cs, d :: ds =>
    if c ≥ d then none
    else
      match encodeAux cs ds with
      | none => none
      | some rest => some (c + d * rest)
  | _, _ => none

/-- Universe::get_index_from_coord: arity check, then the stride loop. -/
def Universe.get_index_from_coord (u : Universe) (coord : List Nat) : Option Nat :=
  if coord.length ≠ u.grid_dims.length then none
  else encodeAux coord u.grid_dims

/-- The reverse loop of get_coord_from_index: the dimension extents are
processed from the last to the first, dividing the running stride by each
extent and splitting the index by division and remainder. -/
def decodeAux : List Nat → Nat → Nat → List Nat
  | [], _, _ => []
  | d :: ds, stride, index =>
    let s2 := stride / d
    index / s2 :: decodeAux ds s2 (index % s2)

/-- Universe::get_coord_from_index: the source iterates the extents in
reverse and writes coordinates from the last position down, so the
coordinate list is the reverse of the reverse-order recursion; the starting
stride is the grid length, as in the source. -/
def Universe.get_coord_from_index (u : Universe) (index : Nat) : List Nat :=
  (decodeAux u.grid_dims.reverse u.grid.length index).reverse

/-- The little-endian base-3 offset digits shifted to -1, 0, 1: digit k is
t / 3 ^ k mod 3 minus one, exactly the successive divisions of the source. -/
def offsetDigits : Nat → Nat → List Int
  | 0, _ => []
  | k + 1, t => (((t % 3 : Nat) : Int) - 1) :: offsetDigits k (t / 3)

/-- Per-dimension wraparound of coordinate plus offset, modelling rem_euclid
on each component: the Int emod of Lean agrees with rem_euclid for the
positive extents the grid uses. -/
def wrapCoord (dims coord : List Nat) (offset : List Int) : List Nat :=
  List.zipWith (fun (cd : Nat × Int) (d : Nat) => (((cd.1 : Int) + cd.2) % (d : Int)).toNat)
    (coord.zip offset) dims

/-- Universe::get_neighbors: enumerate the offsets in increasing mixed-radix
index order from 1 to 3 ^ n - 1, wrap each against the grid extents and
collect the encoded indices of those that encode. -/
def Universe.get_neighbors (u : Universe) (coord : List Nat) : List Nat :=
  let n := u.grid_dims.length
  (List.range (3 ^ n)).foldl
    (fun acc i =>
      if i = 0 then acc
      else
        match u.get_index_from_coord (wrapCoord u.grid_dims coord (offsetDigits n i)) with
        | some idx => acc ++ [idx]
        | none => acc) []

/-- Universe::fixed_operator_state: the pure grade-one state e0 when the
algebra has at least one dimension. -/
def Universe.fixed_operator_state (u : Universe) : Multivector :=
  let mv := Multivector.zero u.ga_dims
  if u.ga_dims > 0 then ⟨mv.p, mv.coefficients.set 1 (Mod3.new 1)⟩ else mv

/-- Universe::entanglement_inversion_operator: the pure scalar minus one. -/
def Universe.entanglement_inversion_operator (u : Universe) : Multivector :=
  let mv := Multivector.zero u.ga_dims
  ⟨mv.p, mv.coefficients.set 0 (Mod3.new (-1))⟩

/-- Universe::set_operator. -/
def Universe.set_operator (u : Universe) (coord : List Nat) : Universe :=
  match u.get_index_from_coord coord with
  | some idx =>
    { u with
        grid := u.grid.set idx
          { u.grid.getD idx blankExiston with
              consciousness := ConsciousnessState.Operator
              state := u.fixed_operator_state } }
  | none => u

/-- Universe::clear_operator: decay the cell, then, if it is still an
Operator (decay only acts on Observed cells), replace it with a fresh
Potential cell of the same id. -/
def Universe.clear_operator (u : Universe) (coord : List Nat) (draw : Nat → Int) : Universe :=
  match u.get_index_from_coord coord with
  | some idx =>
    let c := Existon.decay (u.grid.getD idx blankExiston) draw
    let c2 :=
      if c.consciousness = ConsciousnessState.Operator then
        Existon.new c.id u.ga_dims draw
      else c
    { u with grid := u.grid.set idx c2 }
  | none => u

/-- Universe::observe_cell. -/
def Universe.observe_cell (u : Universe) (idx : Nat) : Universe :=
  if idx < u.grid.length then
    { u with grid := u.grid.set idx (Existon.observe (u.grid.getD idx blankExiston)) }
  else u

/-- Universe::disrupt_cell. -/
def Universe.disrupt_cell (u : Universe) (idx : Nat) (draw : Nat → Int) : Universe :=
  if idx < u.grid.length then
    { u with grid := u.grid.set idx (Existon.decay (u.grid.getD idx blankExiston) draw) }
  else u

/-- Universe::entangle_pair: only when the two ids differ and neither is
already entangled, record them as mutual partners. -/
def Universe.entangle_pair (u : Universe) (id1 id2 : Nat) : Universe :=
  if id1 ≠ id2 ∧ mapLookup u.entangled_pairs id1 = none ∧
      mapLookup u.entangled_pairs id2 = none then
    { u with entangled_pairs := mapInsert (mapInsert u.entangled_pairs id1 id2) id2 id1 }
  else u

/-- Modelled from the spec: re_entangle is listed in the spec, section 4.4,
but absent from src. Per the spec it discards the entangled-pair map and
regenerates it from a fresh uniform shuffle of all ids, greedily pairing
until floor of cellCount * entanglement_percentage / 2 pairs are formed or
ids run out, which is exactly the procedure of generate_entangled_pairs. -/
def Universe.re_entangle (u : Universe) (shuffled : List Nat) : Universe :=
  { u with
      entangled_pairs :=
        Universe.generate_entangled_pairs u.grid.length u.entanglement_percentage shuffled }

--================================================================================
-- The tick, from Universe::tick in src/universe.rs
--================================================================================

/-- The influence multivector of the cell at flat index idx: the states of
its Moore neighbours, folded by pairwise addition starting from zero in the
enumeration order of get_neighbors. -/
def influence (u : Universe) (idx : Nat) : Multivector :=
  (u.get_neighbors (u.get_coord_from_index idx)).foldl
    (fun m n => Multivector.add m (u.grid.getD n blankExiston).state)
    (Multivector.zero u.ga_dims)

/-- The phase-1 value of cell idx: for a non-Operator cell, the geometric
product of the influence on the left with the old state on the right,
followed by the lifecycle roll of the source. -/
def phase1Cell (u : Universe) (r : Nat → CellRand) (idx : Nat) : Existon :=
  let c := u.grid.getD idx blankExiston
  if c.consciousness = ConsciousnessState.Operator then c
  else
    let c1 := { c with state := Multivector.mul (influence u idx) c.state }
    if c.consciousness = ConsciousnessState.Potential then
      if bernoulliTrial u.observation_rate (r idx).obsDraw then Existon.observe c1
      else if bernoulliTrial u.fluctuation_rate (r idx).flucDraw then
        Existon.new c1.id u.ga_dims (r idx).freshState
      else c1
    else
      if bernoulliTrial u.decay_rate (r idx).decayDraw then
        Existon.decay c1 (r idx).freshState
      else c1

/-- The ids cell idx contributes to the observed-this-tick list: its own id
when it is Potential and its observation trial succeeds. -/
def obsContrib (u : Universe) (r : Nat → CellRand) (idx : Nat) : List Nat :=
  let c := u.grid.getD idx blankExiston
  if c.consciousness = ConsciousnessState.Potential ∧
      bernoulliTrial u.observation_rate (r idx).obsDraw then [c.id]
  else []

/-- One iteration of the phase-1 loop of Universe::tick. Operator cells are
skipped; every other cell writes its phase-1 value into its own slot of the
next grid and appends its observation contribution. When the loop reaches
idx, slot idx of the next grid still holds the initial clone of the old
cell, since each iteration writes only its own slot; phase1Cell therefore
reads the pre-step grid directly. -/
def phase1Step (u : Universe) (r : Nat → CellRand)
    (acc : List Existon × List Nat) (idx : Nat) : List Existon × List Nat :=
  if (u.grid.getD idx blankExiston).consciousness = ConsciousnessState.Operator then acc
  else (acc.1.set idx (phase1Cell u r idx), acc.2 ++ obsContrib u r idx)

/-- One iteration of the phase-2 loop of Universe::tick: look up the partner
of an observed id; when the partner is still Potential in the next grid,
observe it, multiply its state on the right by the inversion multivector and
record the triggered pair. -/
def tickPhase2Step (u : Universe) (acc : List Existon × List (Nat × Nat))
    (observedId : Nat) : List Existon × List (Nat × Nat) :=
  match mapLookup u.entangled_pairs observedId with
  | none => acc
  | some partnerId =>
    if (acc.1.getD partnerId blankExiston).consciousness
        = ConsciousnessState.Potential then
      let pc := Existon.observe (acc.1.getD partnerId blankExiston)
      (acc.1.set partnerId
        { pc with state := Multivector.mul pc.state u.entanglement_inversion_operator },
        acc.2 ++ [(observedId, partnerId)])
    else acc

/-- Universe::tick: phase 1 folds the per-cell update over all flat indices
in increasing order starting from a clone of the grid; phase 2 walks the
observed ids in order. -/
def Universe.tick (u : Universe) (r : Nat → CellRand) : Universe × List (Nat × Nat) :=
  let p1 := (List.range u.grid.length).foldl (phase1Step u r) (u.grid, [])
  let p2 := p1.2.foldl (tickPhase2Step u) (p1.1, [])
  ({ u with grid := p2.1 }, p2.2)

/-- n consecutive ticks; r supplies the oracle of each tick. -/
def Universe.ticks (u : Universe) (r : Nat → Nat → CellRand) : Nat → Universe
  | 0 => u
  | n + 1 => ((Universe.ticks u r n).tick (r n)).1

--================================================================================
-- Tick structure lemmas
--================================================================================

/-- A fold preserves any invariant its step preserves. -/
theorem listFoldlInvariant {α β : Type} (P : β → Prop) (l : List α) (g : β → α → β)
    (b : β) (h0 : P b) (hstep : ∀ acc x, x ∈ l → P acc → P (g acc x)) :
    P (l.foldl g b) := by
  induction l generalizing b with
  | nil => exact h0
  | cons a t ih =>
    exact ih (g b a) (hstep b a (by simp) h0)
      fun acc x hx hacc => hstep acc x (by simp [hx]) hacc

/-- The observed-this-tick list after the first n cells. -/
def obsIds (u : Universe) (r : Nat → CellRand) (n : Nat) : List Nat :=
  ((List.range n).map (obsContrib u r)).flatten

/-- Extending the observed list by one cell. -/
theorem obsIds_succ (u : Universe) (r : Nat → CellRand) (n : Nat) :
    obsIds u r (n + 1) = obsIds u r n ++ obsContrib u r n := by
  unfold obsIds
  rw [List.range_succ, List.map_append, List.flatten_append]
  simp

/-- A phase-1 iteration at an Operator cell changes nothing. -/
theorem phase1Step_op (u : Universe) (r : Nat → CellRand)
    (acc : List Existon × List Nat) (idx : Nat)
    (h : (u.grid.getD idx blankExiston).consciousness = ConsciousnessState.Operator) :
    phase1Step u r acc idx = acc := by
  unfold phase1Step
  rw [if_pos h]

/-- A phase-1 iteration at a non-Operator cell writes slot idx and appends
the observation contribution. -/
theorem phase1Step_not_op (u : Universe) (r : Nat → CellRand)
    (acc : List Existon × List Nat) (idx : Nat)
    (h : ¬ (u.grid.getD idx blankExiston).consciousness = ConsciousnessState.Operator) :
    phase1Step u r acc idx
      = (acc.1.set idx (phase1Cell u r idx), acc.2 ++ obsContrib u r idx) := by
  unfold phase1Step
  rw [if_neg h]

/-- The phase-1 fold over the first n cells: the next grid keeps its length,
every processed slot holds its phase-1 value, every unprocessed slot still
holds the pre-step cell, and the observed list is the concatenation of the
per-cell contributions in order. -/
theorem phase1_foldl_spec (u : Universe) (r : Nat → CellRand) (n : Nat)
    (hn : n ≤ u.grid.length) :
    ((List.range n).foldl (phase1Step u r) (u.grid, [])).1.length = u.grid.length ∧
    (∀ j, ((List.range n).foldl (phase1Step u r) (u.grid, [])).1.getD j blankExiston
      = if j < n then phase1Cell u r j else u.grid.getD j blankExiston) ∧
    ((List.range n).foldl (phase1Step u r) (u.grid, [])).2 = obsIds u r n := by
  induction n with
  | zero =>
    simp only [List.range_zero, List.foldl_nil]
    refine ⟨by simp, fun j => ?_, by simp [obsIds]⟩
    rw [if_neg (by omega)]
  | succ m ih =>
    obtain ⟨ihlen, ihget, ihobs⟩ := ih (by omega)
    rw [List.range_succ, List.foldl_append, List.foldl_cons, List.foldl_nil]
    by_cases hop : (u.grid.getD m blankExiston).consciousness = ConsciousnessState.Operator
    · rw [phase1Step_op u r _ m hop]
      refine ⟨ihlen, fun j => ?_, ?_⟩
      · rcases Nat.lt_trichotomy j m with hj | hj | hj
        · rw [ihget j, if_pos hj, if_pos (by omega)]
        · subst hj
          rw [ihget j, if_neg (by omega), if_pos (by omega)]
          unfold phase1Cell
          rw [if_pos hop]
        · rw [ihget j, if_neg (by omega), if_neg (by omega)]
      · rw [ihobs, obsIds_succ]
        have hnil : obsContrib u r m = [] := by
          unfold obsContrib
          rw [if_neg (by rw [hop]; rintro ⟨h1, -⟩; cases h1)]
        rw [hnil, List.append_nil]
    · rw [phase1Step_not_op u r _ m hop]
      refine ⟨by rw [listLengthSet, ihlen], fun j => ?_, ?_⟩
      · rcases Nat.lt_trichotomy j m with hj | hj | hj
        · rw [listGetDSetNe _ _ _ _ _ (by omega), ihget j, if_pos hj, if_pos (by omega)]
        · subst hj
          rw [listGetDSetSelf _ _ _ _ (by rw [ihlen]; omega), if_pos (by omega)]
        · rw [listGetDSetNe _ _ _ _ _ (by omega), ihget j, if_neg (by omega),
            if_neg (by omega)]
      · rw [ihobs, obsIds_succ]

/-- The next grid keeps the grid length across the whole tick. -/
theorem tick_grid_length (u : Universe) (r : Nat → CellRand) :
    ((u.tick r).1).grid.length = u.grid.length := by
  unfold Universe.tick
  simp only
  have h1 := (phase1_foldl_spec u r u.grid.length (by omega)).1
  refine listFoldlInvariant (fun acc : List Existon × List (Nat × Nat) =>
    acc.1.length = u.grid.length) _ _ _ h1 ?_
  intro acc x _ hacc
  unfold tickPhase2Step
  cases hlook : mapLookup u.entangled_pairs x with
  | none => simpa [hlook] using hacc
  | some partnerId =>
    simp only [hlook]
    by_cases hpot : (acc.1.getD partnerId blankExiston).consciousness
        = ConsciousnessState.Potential
    · rw [if_pos hpot]
      simpa using hacc
    · rw [if_neg hpot]
      exact hacc

--================================================================================
-- C2: next state is influence times old state, influence folded over the
-- 3 ^ n - 1 Moore neighbours in offset order
--================================================================================

/-- A Bernoulli trial at rate zero never succeeds. -/
theorem bernoulliTrial_zero (d : Bool) : bernoulliTrial 0 d = false := by
  unfold bernoulliTrial
  rw [if_pos rfl]

/-- With observation rate zero a cell contributes nothing to the observed
list. -/
theorem obsContrib_nil (u : Universe) (r : Nat → CellRand) (idx : Nat)
    (hobs : u.observation_rate = 0) : obsContrib u r idx = [] := by
  unfold obsContrib
  rw [if_neg (by rw [hobs, bernoulliTrial_zero]; rintro ⟨-, h2⟩; cases h2)]

/-- With observation rate zero the observed list of a tick is empty. -/
theorem obsIds_nil (u : Universe) (r : Nat → CellRand) (n : Nat)
    (hobs : u.observation_rate = 0) : obsIds u r n = [] := by
  unfold obsIds
  rw [List.flatten_eq_nil_iff]
  intro l hl
  rw [List.mem_map] at hl
  obtain ⟨i, -, hi⟩ := hl
  rw [← hi, obsContrib_nil u r i hobs]

/-- With observation rate zero phase 2 is a no-op, so the post-tick grid at
any slot is the phase-1 value. -/
theorem tick_grid_getD_zero_obs (u : Universe) (r : Nat → CellRand)
    (hobs : u.observation_rate = 0) (j : Nat) :
    ((u.tick r).1).grid.getD j blankExiston
      = if j < u.grid.length then phase1Cell u r j
        else u.grid.getD j blankExiston := by
  have hspec := phase1_foldl_spec u r u.grid.length (le_refl _)
  have hnil : ((List.range u.grid.length).foldl (phase1Step u r) (u.grid, [])).2 = [] := by
    rw [hspec.2.2, obsIds_nil u r _ hobs]
  unfold Universe.tick
  simp only [hnil, List.foldl_nil]
  exact hspec.2.1 j

/-- With all three per-tick rates zero, the phase-1 value of a non-Operator
cell is the old cell with its state replaced by influence times old state. -/
theorem phase1Cell_zero_rates (u : Universe) (r : Nat → CellRand) (idx : Nat)
    (hobs : u.observation_rate = 0) (hfluc : u.fluctuation_rate = 0)
    (hdec : u.decay_rate = 0)
    (hop : ¬ (u.grid.getD idx blankExiston).consciousness = ConsciousnessState.Operator) :
    phase1Cell u r idx
      = { u.grid.getD idx blankExiston with
            state := Multivector.mul (influence u idx)
              (u.grid.getD idx blankExiston).state } := by
  unfold phase1Cell
  rw [if_neg hop]
  simp only [hobs, hfluc, hdec, bernoulliTrial_zero, Bool.false_eq_true, if_false, ite_self]

/-- Lengths of the offset digit lists. -/
theorem offsetDigits_length (n : Nat) : ∀ t, (offsetDigits n t).length = n := by
  induction n with
  | zero => intro t; rfl
  | succ m ih => intro t; simp [offsetDigits, ih]

/-- The decode loop produces one coordinate per extent. -/
theorem decodeAux_length (ds : List Nat) : ∀ s i, (decodeAux ds s i).length = ds.length := by
  induction ds with
  | nil => intro s i; rfl
  | cons d t ih => intro s i; simp [decodeAux, ih]

/-- A decoded coordinate has the arity of the grid. -/
theorem get_coord_length (u : Universe) (i : Nat) :
    (u.get_coord_from_index i).length = u.grid_dims.length := by
  unfold Universe.get_coord_from_index
  rw [List.length_reverse, decodeAux_length, List.length_reverse]

/-- Wrapping a full-arity coordinate against positive extents lands every
component strictly below its extent. -/
theorem wrapCoord_forall2 :
    ∀ (dims coord : List Nat) (offset : List Int),
      coord.length = dims.length → offset.length = dims.length →
      (∀ d ∈ dims, 0 < d) →
      List.Forall₂ (fun c d => c < d) (wrapCoord dims coord offset) dims := by
  intro dims
  induction dims with
  | nil =>
    intro coord offset h1 h2 _
    cases coord with
    | nil =>
      cases offset with
      | nil => constructor
      | cons o os => simp at h2
    | cons c cs => simp at h1
  | cons d ds ih =>
    intro coord offset h1 h2 hpos
    cases coord with
    | nil => simp at h1
    | cons c cs =>
      cases offset with
      | nil => simp at h2
      | cons o os =>
        unfold wrapCoord
        rw [List.zip_cons_cons, List.zipWith_cons_cons]
        constructor
        · show ((((c : Int) + o) % (d : Int)).toNat < d)
          have hd : (0 : Int) < (d : Int) := by
            have := hpos d (by simp)
            omega
          have hnn := Int.emod_nonneg ((c : Int) + o) (by omega : (d : Int) ≠ 0)
          have hlt := Int.emod_lt_of_pos ((c : Int) + o) hd
          omega
        · have htail := ih cs os (by simpa using h1) (by simpa using h2)
            (fun x hx => hpos x (by simp [hx]))
          unfold wrapCoord at htail
          exact htail

/-- Every coordinate strictly below its extents encodes. -/
theorem encodeAux_isSome :
    ∀ (cs ds : List Nat), List.Forall₂ (fun c d => c < d) cs ds →
      ∃ i, encodeAux cs ds = some i := by
  intro cs ds h
  induction h with
  | nil => exact ⟨0, rfl⟩
  | @cons c d cs2 ds2 hcd htail ih =>
    obtain ⟨i, hi⟩ := ih
    exact ⟨c + d * i, by unfold encodeAux; rw [if_neg (by omega), hi]⟩

/-- The neighbour list of a full-arity coordinate on positive extents has
exactly 3 ^ n - 1 entries, n the number of grid dimensions. -/
theorem get_neighbors_length (u : Universe) (coord : List Nat)
    (hc : coord.length = u.grid_dims.length)
    (hpos : ∀ d ∈ u.grid_dims, 0 < d) :
    (u.get_neighbors coord).length = 3 ^ u.grid_dims.length - 1 := by
  have hsucc : ∀ i : Nat, ∃ m, u.get_index_from_coord
      (wrapCoord u.grid_dims coord (offsetDigits u.grid_dims.length i)) = some m := by
    intro i
    have hf2 := wrapCoord_forall2 u.grid_dims coord (offsetDigits u.grid_dims.length i)
      hc (offsetDigits_length _ i) hpos
    obtain ⟨m, hm⟩ := encodeAux_isSome _ _ hf2
    refine ⟨m, ?_⟩
    unfold Universe.get_index_from_coord
    rw [if_neg (by rw [hf2.length_eq]; simp), hm]
  have key : ∀ (N : Nat) (acc : List Nat),
      ((List.range N).foldl
        (fun acc i =>
          if i = 0 then acc
          else
            match u.get_index_from_coord
                (wrapCoord u.grid_dims coord (offsetDigits u.grid_dims.length i)) with
            | some idx => acc ++ [idx]
            | none => acc) acc).length = acc.length + (N - 1) := by
    intro N
    induction N with
    | zero => intro acc; simp
    | succ m ihm =>
      intro acc
      rw [List.range_succ, List.foldl_append, List.foldl_cons, List.foldl_nil]
      by_cases hm0 : m = 0
      · subst hm0
        simp
      · obtain ⟨v, hv⟩ := hsucc m
        rw [if_neg hm0, hv]
        simp only [List.length_append, List.length_cons, List.length_nil, ihm acc]
        omega
  unfold Universe.get_neighbors
  rw [key]
  simp

/-- With every rate zero, one tick maps each non-Operator cell to the
geometric product of its influence with the old state on the right, where
influence is the fold by pairwise add, starting from zero, over the states
at the indices the code enumerates, 3 ^ n - 1 of them. This is a fact about
the code as written; see C2_thm for why that index list is not the Moore
neighbourhood the specification describes. -/
theorem tick_state_eq_influence (u : Universe) (r : Nat → CellRand) (idx : Nat)
    (hobs : u.observation_rate = 0) (hdec : u.decay_rate = 0)
    (hfluc : u.fluctuation_rate = 0) (_hent : u.entanglement_percentage = 0)
    (hidx : idx < u.grid.length)
    (hop : ¬ (u.grid.getD idx blankExiston).consciousness = ConsciousnessState.Operator)
    (hpos : ∀ d ∈ u.grid_dims, 0 < d) :
    ((u.tick r).1.grid.getD idx blankExiston).state
      = Multivector.mul (influence u idx) ((u.grid.getD idx blankExiston).state) ∧
    (u.get_neighbors (u.get_coord_from_index idx)).length
      = 3 ^ u.grid_dims.length - 1 := by
  constructor
  · rw [tick_grid_getD_zero_obs u r hobs idx, if_pos hidx,
      phase1Cell_zero_rates u r idx hobs hfluc hdec hop]
  · exact get_neighbors_length u _ (get_coord_length u idx) hpos

/-- A trivial oracle: every trial fails, every fresh coefficient is zero. -/
def rA : Nat → CellRand :=
  fun _ => ⟨false, false, false, fun _ => 0⟩

/-- A concrete three-cell universe with every rate zero, used by witnesses. -/
def uA : Universe :=
  { ga_dims := 1
    grid_dims := [3]
    grid :=
      [⟨0, ConsciousnessState.Potential, ⟨1, [⟨1⟩, ⟨0⟩]⟩⟩,
       ⟨1, ConsciousnessState.Potential, ⟨1, [⟨0⟩, ⟨1⟩]⟩⟩,
       ⟨2, ConsciousnessState.Observed, ⟨1, [⟨-1⟩, ⟨1⟩]⟩⟩]
    entangled_pairs := []
    observation_rate := 0
    decay_rate := 0
    entanglement_percentage := 0
    fluctuation_rate := 0 }

/-- C2: the code at the failing input. On the wrapped three-cell line the
neighbour enumeration of cell 1 is [1, 2]: it contains the cell itself and
omits the Moore neighbour 0. The loop skips mixed-radix index 0, but that
index encodes the all-minus-one offset, shown by the second conjunct, while
the all-zero offset sits at index (3 ^ n - 1) / 2, shown by the third
conjunct, and is not skipped; so the influence fold runs over the cell
itself plus 3 ^ n - 2 neighbours, not over the 3 ^ n - 1 Moore neighbours
the claim and the source comment describe. -/
theorem C2_thm :
    uA.get_neighbors (uA.get_coord_from_index 1) = [1, 2] ∧
    offsetDigits uA.grid_dims.length 0 = [-1] ∧
    offsetDigits uA.grid_dims.length ((3 ^ uA.grid_dims.length - 1) / 2) = [0] := by
  decide

--================================================================================
-- C3: a forced pre-step observation does not trigger the entanglement pass
--================================================================================

/-- A five-cell universe with observation rate zero, used to exercise the
entanglement scenario: all cells Potential before editing. -/
def uC3base : Universe :=
  { ga_dims := 0
    grid_dims := [5]
    grid :=
      [⟨0, ConsciousnessState.Potential, ⟨0, [⟨1⟩]⟩⟩,
       ⟨1, ConsciousnessState.Potential, ⟨0, [⟨1⟩]⟩⟩,
       ⟨2, ConsciousnessState.Potential, ⟨0, [⟨-1⟩]⟩⟩,
       ⟨3, ConsciousnessState.Potential, ⟨0, [⟨0⟩]⟩⟩,
       ⟨4, ConsciousnessState.Potential, ⟨0, [⟨1⟩]⟩⟩]
    entangled_pairs := []
    observation_rate := 0
    decay_rate := 0
    entanglement_percentage := 0
    fluctuation_rate := 0 }

/-- The claim scenario: entangle ids 0 and 4 via entangle_pair, then force
observe_cell 0 before the step. -/
def uC3 : Universe :=
  (uC3base.entangle_pair 0 4).observe_cell 0

/-- C3 counterexample: in the scenario of the claim, after one tick with
observation rate zero the cell with id 4 is still Potential, not Observed:
the entanglement pass only processes ids recorded by the spontaneous
observation draw during the same tick, and the forced pre-step observation
of cell 0 is never recorded. -/
theorem C3_counterexample :
    ¬ ((uC3.tick rA).1.grid.getD 4 blankExiston).consciousness
        = ConsciousnessState.Observed ∧
    ((uC3.tick rA).1.grid.getD 4 blankExiston).consciousness
        = ConsciousnessState.Potential := by
  decide

/-- C3 (amended): if ids 0 and 4 are entangled, cell 0 was forced Observed
before the step, cell 4 is Potential, and a step runs with observation rate
zero, then cell 4 is still Potential after the step: no entanglement
collapse and no scalar minus-one multiplication happens, because the
entanglement pass processes only ids observed by the spontaneous draw
during the same step and with rate zero there are none. -/
theorem C3_thm (u : Universe) (r : Nat → CellRand)
    (hobs : u.observation_rate = 0)
    (_hpair : mapLookup u.entangled_pairs 0 = some 4)
    (_h0 : (u.grid.getD 0 blankExiston).consciousness = ConsciousnessState.Observed)
    (h4 : (u.grid.getD 4 blankExiston).consciousness = ConsciousnessState.Potential) :
    ((u.tick r).1.grid.getD 4 blankExiston).consciousness
      = ConsciousnessState.Potential := by
  rw [tick_grid_getD_zero_obs u r hobs 4]
  by_cases hlen : 4 < u.grid.length
  · rw [if_pos hlen]
    unfold phase1Cell
    rw [if_neg (by rw [h4]; intro hx; cases hx)]
    rw [if_pos h4]
    simp only [hobs, bernoulliTrial_zero, Bool.false_eq_true, if_false]
    by_cases hf : bernoulliTrial u.fluctuation_rate (r 4).flucDraw = true
    · rw [if_pos hf]
      rfl
    · rw [if_neg hf]
      exact h4
  · rw [if_neg hlen]
    exact h4

/-- Witness for C3_thm at the concrete scenario universe. -/
theorem C3_witness :
    ((uC3.tick rA).1.grid.getD 4 blankExiston).consciousness
      = ConsciousnessState.Potential :=
  C3_thm uC3 rA (by decide) (by decide) (by decide) (by decide)

--================================================================================
-- C5: clear_operator resets Observed and Operator cells but leaves a
-- Potential cell entirely unchanged
--================================================================================

/-- C5 counterexample: clearing a coordinate whose cell is Potential leaves
the cell exactly as it was, while the freshly constructed Potential cell the
claim promises, with its state drawn from the stream, differs from it. -/
theorem C5_counterexample :
    (uA.clear_operator [0] (fun _ => 1)).grid.getD 0 blankExiston
        = uA.grid.getD 0 blankExiston ∧
    uA.grid.getD 0 blankExiston
        ≠ Existon.new (uA.grid.getD 0 blankExiston).id uA.ga_dims (fun _ => 1) := by
  decide

/-- C5 (amended): after clear_operator at a valid coordinate, an Observed or
Operator cell becomes a freshly constructed Potential cell with the same id
and a state drawn from the stream, while a Potential cell is left entirely
unchanged, old state included. -/
theorem C5_thm (u : Universe) (coord : List Nat) (draw : Nat → Int) (idx : Nat)
    (henc : u.get_index_from_coord coord = some idx)
    (hidx : idx < u.grid.length)
    (hp : (u.grid.getD idx blankExiston).state.p = u.ga_dims) :
    (u.clear_operator coord draw).grid.getD idx blankExiston
      = if (u.grid.getD idx blankExiston).consciousness
            = ConsciousnessState.Potential
        then u.grid.getD idx blankExiston
        else Existon.new (u.grid.getD idx blankExiston).id u.ga_dims draw := by
  unfold Universe.clear_operator
  rw [henc]
  simp only
  rw [listGetDSetSelf _ _ _ _ hidx]
  rcases hcell : u.grid.getD idx blankExiston with ⟨cid, ccon, cst⟩
  rw [hcell] at hp
  simp only at hp
  cases ccon with
  | Potential => simp [Existon.decay, Existon.new]
  | Observed => simp [Existon.decay, Existon.new, hp]
  | Operator => simp [Existon.decay, Existon.new]

/-- Witness for C5_thm: clearing the Observed cell at coordinate 2 of the
concrete universe. -/
theorem C5_witness :
    (uA.clear_operator [2] (fun _ => 1)).grid.getD 2 blankExiston
      = if (uA.grid.getD 2 blankExiston).consciousness
            = ConsciousnessState.Potential
        then uA.grid.getD 2 blankExiston
        else Existon.new (uA.grid.getD 2 blankExiston).id uA.ga_dims (fun _ => 1) :=
  C5_thm uA [2] (fun _ => 1) 2 (by decide) (by decide) (by decide)

--================================================================================
-- C7: Operator cells are untouched by any number of ticks
--================================================================================

/-- One tick leaves a cell whose phase is Operator untouched: phase 1 skips
it and phase 2 only rewrites Potential partners. -/
theorem tick_preserves_operator (u : Universe) (r : Nat → CellRand) (i : Nat)
    (hop : (u.grid.getD i blankExiston).consciousness = ConsciousnessState.Operator) :
    ((u.tick r).1).grid.getD i blankExiston = u.grid.getD i blankExiston := by
  have hspec := phase1_foldl_spec u r u.grid.length (le_refl _)
  unfold Universe.tick
  simp only
  refine listFoldlInvariant
    (fun acc : List Existon × List (Nat × Nat) =>
      acc.1.getD i blankExiston = u.grid.getD i blankExiston) _ _ _ ?_ ?_
  · have h1 := hspec.2.1 i
    by_cases hi : i < u.grid.length
    · rw [if_pos hi] at h1
      have h2 : phase1Cell u r i = u.grid.getD i blankExiston := by
        unfold phase1Cell
        rw [if_pos hop]
      exact h1.trans h2
    · rw [if_neg hi] at h1
      exact h1
  · intro acc x hx hacc
    unfold tickPhase2Step
    cases hlook : mapLookup u.entangled_pairs x with
    | none => simpa [hlook] using hacc
    | some partnerId =>
      simp only [hlook]
      by_cases hpot : (acc.1.getD partnerId blankExiston).consciousness
          = ConsciousnessState.Potential
      · rw [if_pos hpot]
        by_cases hpi : partnerId = i
        · exfalso
          subst hpi
          rw [hacc, hop] at hpot
          cases hpot
        · simp only
          rw [listGetDSetNe _ _ _ _ _ hpi]
          exact hacc
      · rw [if_neg hpot]
        exact hacc

/-- C7: a cell whose phase is Operator keeps its entire value, state and
phase included, across any number of consecutive ticks. -/
theorem C7_thm (u : Universe) (r : Nat → Nat → CellRand) (i n : Nat)
    (hop : (u.grid.getD i blankExiston).consciousness = ConsciousnessState.Operator) :
    (u.ticks r n).grid.getD i blankExiston = u.grid.getD i blankExiston := by
  induction n with
  | zero => rfl
  | succ m ih =>
    show ((u.ticks r m).tick (r m)).1.grid.getD i blankExiston = _
    rw [tick_preserves_operator _ _ i (by rw [ih]; exact hop), ih]

/-- A concrete universe with an Operator cell and nonzero rates. -/
def uB : Universe :=
  { ga_dims := 1
    grid_dims := [3]
    grid :=
      [⟨0, ConsciousnessState.Operator, ⟨1, [⟨0⟩, ⟨1⟩]⟩⟩,
       ⟨1, ConsciousnessState.Potential, ⟨1, [⟨1⟩, ⟨1⟩]⟩⟩,
       ⟨2, ConsciousnessState.Observed, ⟨1, [⟨-1⟩, ⟨0⟩]⟩⟩]
    entangled_pairs := [(1, 2), (2, 1)]
    observation_rate := 1 / 100
    decay_rate := 1 / 100
    entanglement_percentage := 1 / 20
    fluctuation_rate := 1 / 1000 }

/-- A per-tick oracle: every trial fails, every fresh coefficient is zero. -/
def rB : Nat → Nat → CellRand :=
  fun _ _ => ⟨false, false, false, fun _ => 0⟩

/-- Witness for C7_thm: the Operator cell of the concrete universe is
unchanged after five ticks. -/
theorem C7_witness :
    (uB.ticks rB 5).grid.getD 0 blankExiston = uB.grid.getD 0 blankExiston :=
  C7_thm uB rB 0 5 (by decide)

--================================================================================
-- C9: coordinate round-trip
--================================================================================

/-- Unfolding one encode step. -/
theorem encodeAux_cons (c d : Nat) (cs ds : List Nat) :
    encodeAux (c :: cs) (d :: ds)
      = if c ≥ d then none
        else
          match encodeAux cs ds with
          | none => none
          | some rest => some (c + d * rest) := rfl

/-- Appending one coordinate and extent to an encoding multiplies through
the product of the earlier extents. -/
theorem encodeAux_append (cs : List Nat) :
    ∀ (ds : List Nat) (c d : Nat), cs.length = ds.length →
      encodeAux (cs ++ [c]) (ds ++ [d])
        = (encodeAux cs ds).bind
            fun i => if d ≤ c then none else some (i + ds.prod * c) := by
  induction cs with
  | nil =>
    intro ds c d hlen
    cases ds with
    | nil =>
      rw [List.nil_append, List.nil_append, encodeAux_cons]
      simp only [show encodeAux [] [] = some 0 from rfl, Option.some_bind]
      by_cases hdc : d ≤ c
      · rw [if_pos (show c ≥ d from hdc), if_pos hdc]
      · rw [if_neg (show ¬ c ≥ d from hdc), if_neg hdc]
        congr 1
        simp
    | cons d0 ds0 => simp at hlen
  | cons c0 cs0 ih =>
    intro ds c d hlen
    cases ds with
    | nil => simp at hlen
    | cons d0 ds0 =>
      rw [List.cons_append, List.cons_append, encodeAux_cons, encodeAux_cons]
      by_cases h0 : c0 ≥ d0
      · rw [if_pos h0, if_pos h0]
        rfl
      · rw [if_neg h0, if_neg h0]
        rw [ih ds0 c d (by simpa using hlen)]
        cases henc : encodeAux cs0 ds0 with
        | none => rfl
        | some i0 =>
          by_cases hdc : d ≤ c
          · simp only [if_pos hdc, Option.some_bind]
          · simp only [if_neg hdc, List.prod_cons, Option.some_bind]
            congr 1
            ring

/-- An encoded index is below the product of the extents. -/
theorem encode_lt_prod (cs : List Nat) :
    ∀ (ds : List Nat) (i : Nat), encodeAux cs ds = some i → i < ds.prod := by
  induction cs with
  | nil =>
    intro ds i h
    cases ds with
    | nil =>
      have h0 : i = 0 := by
        have := h.symm
        simpa [encodeAux] using this
      rw [h0]
      simp
    | cons d0 ds0 => simp [encodeAux] at h
  | cons c0 cs0 ih =>
    intro ds i h
    cases ds with
    | nil => simp [encodeAux] at h
    | cons d0 ds0 =>
      rw [encodeAux_cons] at h
      by_cases h0 : c0 ≥ d0
      · rw [if_pos h0] at h
        cases h
      · rw [if_neg h0] at h
        cases henc : encodeAux cs0 ds0 with
        | none => rw [henc] at h; cases h
        | some i0 =>
          rw [henc] at h
          have hi : i = c0 + d0 * i0 := by
            have := h.symm
            simpa using this
          have hlt := ih ds0 i0 henc
          have h1 : d0 * (i0 + 1) = d0 * i0 + d0 := by ring
          have h2 : d0 * (i0 + 1) ≤ d0 * ds0.prod :=
            Nat.mul_le_mul_left d0 (by omega)
          rw [List.prod_cons]
          omega

/-- Decoding inverts encoding: the reverse-order decode of an encoded valid
coordinate, started at the product of the extents, recovers the reversed
coordinate. -/
theorem decode_encode (ds : List Nat) :
    ∀ (cs : List Nat) (i : Nat), cs.length = ds.length →
      encodeAux cs ds = some i →
      decodeAux ds.reverse ds.prod i = cs.reverse := by
  induction ds using List.reverseRecOn with
  | nil =>
    intro cs i hlen henc
    cases cs with
    | nil => rfl
    | cons c0 cs0 => simp at hlen
  | append_singleton ds0 d ih =>
    intro cs i hlen henc
    rcases List.eq_nil_or_concat cs with hcs | ⟨cs0, c, hcs⟩
    · rw [hcs] at hlen
      simp at hlen
    · subst hcs
      rw [List.concat_eq_append] at hlen henc ⊢
      rw [encodeAux_append cs0 ds0 c d (by
        rw [List.length_append, List.length_append] at hlen
        simpa using hlen)] at henc
      cases henc0 : encodeAux cs0 ds0 with
      | none => rw [henc0] at henc; cases henc
      | some i0 =>
        rw [henc0, Option.some_bind] at henc
        by_cases hdc : d ≤ c
        · rw [if_pos hdc] at henc
          cases henc
        · rw [if_neg hdc] at henc
          have hi : i = i0 + ds0.prod * c := by
            have := henc.symm
            simpa using this
          have hlt := encode_lt_prod cs0 ds0 i0 henc0
          have hp0 : 0 < ds0.prod := by omega
          have hd0 : 0 < d := by omega
          rw [List.reverse_append, List.reverse_singleton, List.singleton_append]
          rw [List.prod_append, List.prod_singleton]
          unfold decodeAux
          have hs2 : ds0.prod * d / d = ds0.prod := Nat.mul_div_cancel _ hd0
          rw [hs2, hi]
          show (i0 + ds0.prod * c) / ds0.prod
              :: decodeAux ds0.reverse ds0.prod ((i0 + ds0.prod * c) % ds0.prod)
            = (cs0 ++ [c]).reverse
          have hdiv : (i0 + ds0.prod * c) / ds0.prod = c := by
            rw [Nat.add_mul_div_left _ _ hp0, Nat.div_eq_of_lt hlt]
            omega
          have hmod : (i0 + ds0.prod * c) % ds0.prod = i0 := by
            rw [Nat.add_mul_mod_self_left, Nat.mod_eq_of_lt hlt]
          rw [hdiv, hmod, ih cs0 i0 (by
            rw [List.length_append, List.length_append] at hlen
            simpa using hlen) henc0]
          rw [List.reverse_append, List.reverse_singleton, List.singleton_append]

/-- C9: every coordinate of the correct arity with every component in range
encodes to some flat index, and decoding that index recovers the coordinate,
provided the grid has its invariant length, the product of the extents. -/
theorem C9_thm (u : Universe) (coord : List Nat)
    (hlen : u.grid.length = u.grid_dims.prod)
    (hvalid : List.Forall₂ (fun c d => c < d) coord u.grid_dims) :
    ∃ idx, u.get_index_from_coord coord = some idx ∧
      u.get_coord_from_index idx = coord := by
  obtain ⟨i, hi⟩ := encodeAux_isSome coord u.grid_dims hvalid
  refine ⟨i, ?_, ?_⟩
  · unfold Universe.get_index_from_coord
    rw [if_neg (by rw [hvalid.length_eq]; simp), hi]
  · unfold Universe.get_coord_from_index
    rw [hlen, decode_encode u.grid_dims coord i hvalid.length_eq hi,
      List.reverse_reverse]

/-- Witness for C9_thm: coordinate 2 of the three-cell universe encodes to
index 2 and decodes back. -/
theorem C9_witness :
    ∃ idx, uA.get_index_from_coord [2] = some idx ∧
      uA.get_coord_from_index idx = [2] :=
  C9_thm uA [2] (by decide)
    (List.Forall₂.cons (by decide) List.Forall₂.nil)

--================================================================================
-- C8: the entangled-pair map invariant
--================================================================================

/-- The entangled-pair map invariant: symmetric, no self-pairs, and no two
distinct ids share a partner. -/
def goodMap (m : List (Nat × Nat)) : Prop :=
  (∀ a b, mapLookup m a = some b → mapLookup m b = some a) ∧
  (∀ a, ¬ mapLookup m a = some a) ∧
  (∀ a b c, mapLookup m a = some c → mapLookup m b = some c → a = b)

/-- Lookup after insert: the inserted key finds the new value, every other
key is unaffected. -/
theorem mapLookup_insert (m : List (Nat × Nat)) (k v k2 : Nat) :
    mapLookup (mapInsert m k v) k2 = if k2 = k then some v else mapLookup m k2 := by
  unfold mapLookup mapInsert
  by_cases hk : k2 = k
  · subst hk
    rw [if_pos rfl, List.find?_cons_of_pos _ (by simp)]
    rfl
  · rw [if_neg hk, List.find?_cons_of_neg _ (by simp; omega)]
    congr 1
    induction m with
    | nil => rfl
    | cons a t ih =>
      rw [List.filter_cons]
      by_cases hak : a.1 = k
      · rw [if_neg (by simp [hak])]
        rw [List.find?_cons_of_neg _ (by simp [hak]; omega)]
        exact ih
      · rw [if_pos (by simp [hak])]
        by_cases hak2 : a.1 = k2
        · rw [List.find?_cons_of_pos _ (by simp [hak2]),
            List.find?_cons_of_pos _ (by simp [hak2])]
        · rw [List.find?_cons_of_neg _ (by simp [hak2]),
            List.find?_cons_of_neg _ (by simp [hak2])]
          exact ih

/-- The empty map satisfies the invariant. -/
theorem goodMap_nil : goodMap [] := by
  refine ⟨?_, ?_, ?_⟩
  · intro a b h
    cases h
  · intro a h
    cases h
  · intro a b c h1 h2
    cases h1

/-- Inserting a mutual pair of two fresh, distinct ids preserves the
invariant. -/
theorem goodMap_insertPair (m : List (Nat × Nat)) (k v : Nat) (hkv : k ≠ v)
    (hk : mapLookup m k = none) (hv : mapLookup m v = none) (hm : goodMap m) :
    goodMap (mapInsert (mapInsert m k v) v k) := by
  obtain ⟨hsym, hirr, hinj⟩ := hm
  have hl : ∀ x, mapLookup (mapInsert (mapInsert m k v) v k) x
      = if x = v then some k else if x = k then some v else mapLookup m x := by
    intro x
    rw [mapLookup_insert, mapLookup_insert]
  have hfresh : ∀ x y, mapLookup m x = some y → ¬ y = k ∧ ¬ y = v := by
    intro x y hxy
    constructor
    · intro h
      rw [h] at hxy
      have h2 := hsym x k hxy
      rw [hk] at h2
      cases h2
    · intro h
      rw [h] at hxy
      have h2 := hsym x v hxy
      rw [hv] at h2
      cases h2
  refine ⟨?_, ?_, ?_⟩
  · intro a b hab
    rw [hl a] at hab
    rw [hl b]
    by_cases hav : a = v
    · rw [if_pos hav] at hab
      have hb : b = k := by injection hab with h; omega
      subst hb
      rw [if_neg (fun hc => hkv hc), if_pos rfl, hav]
    · rw [if_neg hav] at hab
      by_cases hak : a = k
      · rw [if_pos hak] at hab
        have hb : b = v := by injection hab with h; omega
        subst hb
        rw [if_pos rfl, hak]
      · rw [if_neg hak] at hab
        obtain ⟨hbk, hbv⟩ := hfresh a b hab
        rw [if_neg hbv, if_neg hbk]
        exact hsym a b hab
  · intro a
    rw [hl a]
    by_cases hav : a = v
    · rw [if_pos hav]
      intro h
      injection h with h2
      omega
    · rw [if_neg hav]
      by_cases hak : a = k
      · rw [if_pos hak]
        intro h
        injection h with h2
        omega
      · rw [if_neg hak]
        exact hirr a
  · intro a b c hac hbc
    rw [hl a] at hac
    rw [hl b] at hbc
    by_cases hav : a = v
    · rw [if_pos hav] at hac
      have hck : c = k := by injection hac with h; omega
      by_cases hbv : b = v
      · omega
      · rw [if_neg hbv] at hbc
        by_cases hbk : b = k
        · rw [if_pos hbk] at hbc
          have hcv : c = v := by injection hbc with h; omega
          omega
        · rw [if_neg hbk] at hbc
          exact absurd (hfresh b c hbc).1 (by omega)
    · rw [if_neg hav] at hac
      by_cases hak : a = k
      · rw [if_pos hak] at hac
        have hcv : c = v := by injection hac with h; omega
        by_cases hbv : b = v
        · rw [if_pos hbv] at hbc
          have hck : c = k := by injection hbc with h; omega
          omega
        · rw [if_neg hbv] at hbc
          by_cases hbk : b = k
          · omega
          · rw [if_neg hbk] at hbc
            exact absurd (hfresh b c hbc).2 (by omega)
      · rw [if_neg hak] at hac
        by_cases hbv : b = v
        · rw [if_pos hbv] at hbc
          have hck : c = k := by injection hbc with h; omega
          exact absurd (hfresh a c hac).1 (by omega)
        · rw [if_neg hbv] at hbc
          by_cases hbk : b = k
          · rw [if_pos hbk] at hbc
            have hcv : c = v := by injection hbc with h; omega
            exact absurd (hfresh a c hac).2 (by omega)
          · rw [if_neg hbk] at hbc
            exact hinj a b c hac hbc

/-- Popping the last element decomposes the list. -/
theorem popLast_eq (l r : List Nat) (x : Nat) (h : popLast l = some (x, r)) :
    l = r ++ [x] := by
  unfold popLast at h
  cases hg : l.getLast? with
  | none => rw [hg] at h; cases h
  | some y =>
    rw [hg] at h
    injection h with h2
    obtain ⟨l2, hl2⟩ := List.getLast?_eq_some_iff.mp hg
    have hx : x = y := by
      have h3 := congrArg Prod.fst h2.symm
      simpa using h3
    have hr : r = l.dropLast := by
      have h3 := congrArg Prod.snd h2.symm
      simpa using h3
    subst hx
    rw [hr, hl2, List.dropLast_concat]

/-- The pairing loop preserves the invariant when the available ids are
distinct and none of them is already entangled. -/
theorem genPairsAux_good :
    ∀ (n : Nat) (avail : List Nat) (m : List (Nat × Nat)),
      avail.Nodup → (∀ x ∈ avail, mapLookup m x = none) → goodMap m →
      goodMap (genPairsAux n avail m) := by
  intro n
  induction n with
  | zero => intro avail m _ _ hm; exact hm
  | succ n2 ih =>
    intro avail m hnd hnone hm
    rw [genPairsAux]
    by_cases hlen : avail.length < 2
    · rw [if_pos hlen]
      exact hm
    · rw [if_neg hlen]
      cases hpop : popLast avail with
      | none =>
        simp only [hpop]
        exact hm
      | some p1 =>
        obtain ⟨id1, rest1⟩ := p1
        simp only [hpop]
        cases hpop2 : popLast rest1 with
        | none =>
          simp only [hpop2]
          exact hm
        | some p2 =>
          obtain ⟨id2, rest2⟩ := p2
          simp only [hpop2]
          have hav : avail = (rest2 ++ [id2]) ++ [id1] := by
            rw [← popLast_eq rest1 rest2 id2 hpop2]
            exact popLast_eq avail rest1 id1 hpop
          rw [hav] at hnd hnone
          have hdisj := (List.nodup_append.mp hnd).2.2
          have h3 := (List.nodup_append.mp hnd).1
          have hdisj2 := (List.nodup_append.mp h3).2.2
          have h12 : id1 ≠ id2 := by
            intro hc
            exact hdisj (show id2 ∈ rest2 ++ [id2] by simp)
              (show id2 ∈ [id1] by simp [hc])
          have hid1 : mapLookup m id1 = none := hnone id1 (by simp)
          have hid2 : mapLookup m id2 = none := hnone id2 (by simp)
          have hgood2 := goodMap_insertPair m id1 id2 h12 hid1 hid2 hm
          have hnd2 : rest2.Nodup := (List.nodup_append.mp h3).1
          have hnone2 : ∀ x ∈ rest2,
              mapLookup (mapInsert (mapInsert m id1 id2) id2 id1) x = none := by
            intro x hx
            have hx1 : x ≠ id1 := by
              intro hc
              exact hdisj (show x ∈ rest2 ++ [id2] by simp [hx])
                (show x ∈ [id1] by simp [hc])
            have hx2 : x ≠ id2 := by
              intro hc
              exact hdisj2 hx (show x ∈ [id2] by simp [hc])
            rw [mapLookup_insert, if_neg hx2, mapLookup_insert, if_neg hx1]
            exact hnone x (by simp [hx])
          exact ih rest2 _ hnd2 hnone2 hgood2

/-- The generated initial map satisfies the invariant for any duplicate-free
shuffle. -/
theorem generate_good (size : Nat) (pct : ℚ) (sh : List Nat) (hnd : sh.Nodup) :
    goodMap (Universe.generate_entangled_pairs size pct sh) :=
  genPairsAux_good _ sh [] hnd (fun _ _ => rfl) goodMap_nil

/-- entangle_pair preserves the invariant. -/
theorem entangle_pair_good (u : Universe) (id1 id2 : Nat)
    (h : goodMap u.entangled_pairs) :
    goodMap (u.entangle_pair id1 id2).entangled_pairs := by
  unfold Universe.entangle_pair
  by_cases hc : id1 ≠ id2 ∧ mapLookup u.entangled_pairs id1 = none ∧
      mapLookup u.entangled_pairs id2 = none
  · rw [if_pos hc]
    exact goodMap_insertPair _ _ _ hc.1 hc.2.1 hc.2.2 h
  · rw [if_neg hc]
    exact h

/-- An editing action on the entangled-pair map: a manual pairing or a
regeneration from a fresh shuffle. -/
inductive EntAction where
  | pair : Nat → Nat → EntAction
  | reshuffle : List Nat → EntAction

/-- Apply a sequence of entanglement editing actions. -/
def applyEntActions (u : Universe) : List EntAction → Universe
  | [] => u
  | EntAction.pair i j :: rest => applyEntActions (u.entangle_pair i j) rest
  | EntAction.reshuffle sh :: rest => applyEntActions (u.re_entangle sh) rest

/-- C8: the entangled-pair map invariant, symmetry, no self-pairs and no
shared partners, holds after construction and after any sequence of
entangle_pair and re_entangle calls, for duplicate-free shuffles. -/
theorem C8_thm (grid_dims : List Nat) (ga : Nat) (draws : Nat → Nat → Int)
    (sh : List Nat) (acts : List EntAction) (hsh : sh.Nodup)
    (hacts : ∀ sh2, EntAction.reshuffle sh2 ∈ acts → sh2.Nodup) :
    goodMap ((applyEntActions (Universe.new grid_dims ga draws sh) acts).entangled_pairs) := by
  have key : ∀ (acts2 : List EntAction) (u : Universe), goodMap u.entangled_pairs →
      (∀ sh2, EntAction.reshuffle sh2 ∈ acts2 → sh2.Nodup) →
      goodMap ((applyEntActions u acts2).entangled_pairs) := by
    intro acts2
    induction acts2 with
    | nil => intro u hu _; exact hu
    | cons a t ih =>
      intro u hu hnd
      cases a with
      | pair i j =>
        exact ih _ (entangle_pair_good u i j hu) fun s hs => hnd s (by simp [hs])
      | reshuffle s2 =>
        refine ih _ ?_ fun s hs => hnd s (by simp [hs])
        show goodMap (u.re_entangle s2).entangled_pairs
        unfold Universe.re_entangle
        exact generate_good _ _ _ (hnd s2 (by simp))
  exact key acts _ (generate_good _ _ _ hsh) hacts

/-- Witness for C8_thm: a four-cell universe, one manual pairing and one
regeneration from a concrete shuffle. -/
theorem C8_witness :
    goodMap ((applyEntActions
      (Universe.new [4] 0 (fun _ _ => 0) [0, 1, 2, 3])
      [EntAction.pair 0 2, EntAction.reshuffle [3, 2, 1, 0]]).entangled_pairs) :=
  C8_thm [4] 0 (fun _ _ => 0) [0, 1, 2, 3]
    [EntAction.pair 0 2, EntAction.reshuffle [3, 2, 1, 0]]
    (by decide)
    (by
      intro s2 hs
      simp only [List.mem_cons, List.not_mem_nil, or_false] at hs
      rcases hs with hs | hs
      · cases hs
      · injection hs with h2
        rw [h2]
        decide)

--================================================================================
-- C10: the id-equals-index invariant
--================================================================================

/-- Setting out of range leaves a list unchanged. -/
theorem listSetOOB {α : Type} (l : List α) (i : Nat) (v : α)
    (h : l.length ≤ i) : l.set i v = l := by
  induction l generalizing i with
  | nil => rfl
  | cons a t ih =>
    cases i with
    | zero => simp at h
    | succ k => simpa using ih k (by simpa using h)

/-- getD after set, all cases. -/
theorem listGetDSet {α : Type} (l : List α) (i j : Nat) (v d : α) :
    (l.set i v).getD j d
      = if j = i ∧ i < l.length then v else l.getD j d := by
  by_cases h : j = i ∧ i < l.length
  · obtain ⟨h1, h2⟩ := h
    subst h1
    rw [if_pos ⟨rfl, h2⟩, listGetDSetSelf _ _ _ _ h2]
  · rw [if_neg h]
    by_cases hji : j = i
    · subst hji
      rw [listSetOOB _ _ _ (by omega)]
    · rw [listGetDSetNe _ _ _ _ _ fun hc => hji hc.symm]

/-- Reducing a phase-2 iteration when the observed id has no partner. -/
theorem tickPhase2Step_none (u : Universe) (acc : List Existon × List (Nat × Nat))
    (x : Nat) (h : mapLookup u.entangled_pairs x = none) :
    tickPhase2Step u acc x = acc := by
  unfold tickPhase2Step
  rw [h]

/-- Reducing a phase-2 iteration when the observed id has a partner. -/
theorem tickPhase2Step_some (u : Universe) (acc : List Existon × List (Nat × Nat))
    (x p : Nat) (h : mapLookup u.entangled_pairs x = some p) :
    tickPhase2Step u acc x
      = if (acc.1.getD p blankExiston).consciousness
            = ConsciousnessState.Potential then
          (acc.1.set p
            { Existon.observe (acc.1.getD p blankExiston) with
                state := Multivector.mul
                  (Existon.observe (acc.1.getD p blankExiston)).state
                  u.entanglement_inversion_operator },
            acc.2 ++ [(x, p)])
        else acc := by
  unfold tickPhase2Step
  rw [h]

/-- Reducing set_operator at a coordinate that encodes. -/
theorem set_operator_some (u : Universe) (coord : List Nat) (idx : Nat)
    (h : u.get_index_from_coord coord = some idx) :
    u.set_operator coord
      = { u with
            grid := u.grid.set idx
              { u.grid.getD idx blankExiston with
                  consciousness := ConsciousnessState.Operator
                  state := u.fixed_operator_state } } := by
  unfold Universe.set_operator
  rw [h]

/-- Reducing set_operator at a coordinate that does not encode. -/
theorem set_operator_none (u : Universe) (coord : List Nat)
    (h : u.get_index_from_coord coord = none) :
    u.set_operator coord = u := by
  unfold Universe.set_operator
  rw [h]

/-- Reducing clear_operator at a coordinate that encodes. -/
theorem clear_operator_some (u : Universe) (coord : List Nat) (draw : Nat → Int)
    (idx : Nat) (h : u.get_index_from_coord coord = some idx) :
    u.clear_operator coord draw
      = { u with
            grid := u.grid.set idx
              (if (Existon.decay (u.grid.getD idx blankExiston) draw).consciousness
                  = ConsciousnessState.Operator then
                Existon.new (Existon.decay (u.grid.getD idx blankExiston) draw).id
                  u.ga_dims draw
              else Existon.decay (u.grid.getD idx blankExiston) draw) } := by
  unfold Universe.clear_operator
  rw [h]

/-- Reducing clear_operator at a coordinate that does not encode. -/
theorem clear_operator_none (u : Universe) (coord : List Nat) (draw : Nat → Int)
    (h : u.get_index_from_coord coord = none) :
    u.clear_operator coord draw = u := by
  unfold Universe.clear_operator
  rw [h]

/-- observe keeps the id. -/
theorem observe_id (e : Existon) : (Existon.observe e).id = e.id := by
  unfold Existon.observe
  split <;> rfl

/-- decay keeps the id. -/
theorem decay_id (e : Existon) (draw : Nat → Int) :
    (Existon.decay e draw).id = e.id := by
  unfold Existon.decay
  split <;> rfl

/-- The phase-1 value keeps the id of the pre-step cell. -/
theorem phase1Cell_id (u : Universe) (r : Nat → CellRand) (idx : Nat) :
    (phase1Cell u r idx).id = (u.grid.getD idx blankExiston).id := by
  unfold phase1Cell
  by_cases hop : (u.grid.getD idx blankExiston).consciousness
      = ConsciousnessState.Operator
  · rw [if_pos hop]
  · rw [if_neg hop]
    by_cases hpot : (u.grid.getD idx blankExiston).consciousness
        = ConsciousnessState.Potential
    · rw [if_pos hpot]
      by_cases ho : bernoulliTrial u.observation_rate (r idx).obsDraw = true
      · rw [if_pos ho, observe_id]
      · rw [if_neg ho]
        by_cases hf : bernoulliTrial u.fluctuation_rate (r idx).flucDraw = true
        · rw [if_pos hf]
          rfl
        · rw [if_neg hf]
    · rw [if_neg hpot]
      by_cases hd : bernoulliTrial u.decay_rate (r idx).decayDraw = true
      · rw [if_pos hd, decay_id]
      · rw [if_neg hd]

/-- The id-equals-index invariant of the grid. -/
def idInvariant (u : Universe) : Prop :=
  ∀ i, i < u.grid.length → (u.grid.getD i blankExiston).id = i

/-- A tick preserves the id invariant. -/
theorem tick_preserves_idInv (u : Universe) (r : Nat → CellRand)
    (hu : idInvariant u) : idInvariant (u.tick r).1 := by
  intro i hi
  rw [tick_grid_length] at hi
  have hspec := phase1_foldl_spec u r u.grid.length (le_refl _)
  have hinv := listFoldlInvariant
    (fun acc : List Existon × List (Nat × Nat) =>
      acc.1.length = u.grid.length ∧
      ∀ j, j < u.grid.length → (acc.1.getD j blankExiston).id = j)
    ((List.range u.grid.length).foldl (phase1Step u r) (u.grid, [])).2
    (tickPhase2Step u)
    (((List.range u.grid.length).foldl (phase1Step u r) (u.grid, [])).1, [])
    ⟨hspec.1, fun j hj => by
      rw [hspec.2.1 j, if_pos hj, phase1Cell_id u r j]
      exact hu j hj⟩
    (by
      intro acc x _ hacc
      obtain ⟨hlen2, hids⟩ := hacc
      cases hlook : mapLookup u.entangled_pairs x with
      | none =>
        rw [tickPhase2Step_none u acc x hlook]
        exact ⟨hlen2, hids⟩
      | some partnerId =>
        rw [tickPhase2Step_some u acc x partnerId hlook]
        by_cases hpot : (acc.1.getD partnerId blankExiston).consciousness
            = ConsciousnessState.Potential
        · rw [if_pos hpot]
          refine ⟨by rw [listLengthSet]; exact hlen2, fun j hj => ?_⟩
          rw [listGetDSet]
          by_cases hpj : j = partnerId ∧ partnerId < acc.1.length
          · rw [if_pos hpj]
            obtain ⟨hj1, hj2⟩ := hpj
            show (Existon.observe (acc.1.getD partnerId blankExiston)).id = j
            rw [observe_id, hids partnerId (by omega), hj1]
          · rw [if_neg hpj]
            exact hids j hj
        · rw [if_neg hpot]
          exact ⟨hlen2, hids⟩)
  exact hinv.2 i hi

/-- C10: cells carry their own flat index as id: the invariant holds after
construction and is preserved by tick, set_operator, clear_operator,
disrupt_cell and observe_cell. -/
theorem C10_thm :
    (∀ (dims : List Nat) (ga : Nat) (draws : Nat → Nat → Int) (sh : List Nat),
      idInvariant (Universe.new dims ga draws sh)) ∧
    (∀ (u : Universe) (r : Nat → CellRand), idInvariant u →
      idInvariant (u.tick r).1) ∧
    (∀ (u : Universe) (coord : List Nat), idInvariant u →
      idInvariant (u.set_operator coord)) ∧
    (∀ (u : Universe) (coord : List Nat) (draw : Nat → Int), idInvariant u →
      idInvariant (u.clear_operator coord draw)) ∧
    (∀ (u : Universe) (idx : Nat) (draw : Nat → Int), idInvariant u →
      idInvariant (u.disrupt_cell idx draw)) ∧
    (∀ (u : Universe) (idx : Nat), idInvariant u →
      idInvariant (u.observe_cell idx)) := by
  refine ⟨?_, tick_preserves_idInv, ?_, ?_, ?_, ?_⟩
  · intro dims ga draws sh i hi
    have hgrid : (Universe.new dims ga draws sh).grid
        = (List.range dims.prod).map fun j => Existon.new j ga (draws j) := rfl
    rw [hgrid] at hi
    rw [List.length_map, List.length_range] at hi
    rw [hgrid, listGetDMapRange, if_pos hi]
    rfl
  · intro u coord hu i hi
    cases henc : u.get_index_from_coord coord with
    | none =>
      rw [set_operator_none u coord henc] at hi ⊢
      exact hu i hi
    | some idx =>
      rw [set_operator_some u coord idx henc] at hi ⊢
      simp only [listLengthSet] at hi
      rw [show ({ u with
            grid := u.grid.set idx
              { u.grid.getD idx blankExiston with
                  consciousness := ConsciousnessState.Operator
                  state := u.fixed_operator_state } } : Universe).grid
          = u.grid.set idx
              { u.grid.getD idx blankExiston with
                  consciousness := ConsciousnessState.Operator
                  state := u.fixed_operator_state } from rfl]
      rw [listGetDSet]
      by_cases hj : i = idx ∧ idx < u.grid.length
      · rw [if_pos hj]
        show (u.grid.getD idx blankExiston).id = i
        rw [hu idx hj.2, hj.1]
      · rw [if_neg hj]
        exact hu i hi
  · intro u coord draw hu i hi
    cases henc : u.get_index_from_coord coord with
    | none =>
      rw [clear_operator_none u coord draw henc] at hi ⊢
      exact hu i hi
    | some idx =>
      rw [clear_operator_some u coord draw idx henc] at hi ⊢
      simp only [listLengthSet] at hi
      rw [listGetDSet]
      by_cases hj : i = idx ∧ idx < u.grid.length
      · rw [if_pos hj]
        by_cases hop : (Existon.decay (u.grid.getD idx blankExiston) draw).consciousness
            = ConsciousnessState.Operator
        · rw [if_pos hop]
          show (Existon.decay (u.grid.getD idx blankExiston) draw).id = i
          rw [decay_id, hu idx hj.2, hj.1]
        · rw [if_neg hop, decay_id, hu idx hj.2, hj.1]
      · rw [if_neg hj]
        exact hu i hi
  · intro u idx draw hu i hi
    unfold Universe.disrupt_cell at hi ⊢
    by_cases hlt : idx < u.grid.length
    · rw [if_pos hlt] at hi ⊢
      simp only [listLengthSet] at hi
      rw [listGetDSet]
      by_cases hj : i = idx ∧ idx < u.grid.length
      · rw [if_pos hj]
        rw [decay_id, hu idx hj.2, hj.1]
      · rw [if_neg hj]
        exact hu i hi
    · rw [if_neg hlt] at hi ⊢
      exact hu i hi
  · intro u idx hu i hi
    unfold Universe.observe_cell at hi ⊢
    by_cases hlt : idx < u.grid.length
    · rw [if_pos hlt] at hi ⊢
      simp only [listLengthSet] at hi
      rw [listGetDSet]
      by_cases hj : i = idx ∧ idx < u.grid.length
      · rw [if_pos hj]
        rw [observe_id, hu idx hj.2, hj.1]
      · rw [if_neg hj]
        exact hu i hi
    · rw [if_neg hlt] at hi ⊢
      exact hu i hi

instance (u : Universe) : Decidable (idInvariant u) := by
  unfold idInvariant
  infer_instance

/-- Witness for C10_thm at concrete inputs: a fresh two-by-two universe and
each editing operation on the three-cell universe. -/
theorem C10_witness :
    idInvariant (Universe.new [2, 2] 1 (fun _ _ => 1) [0, 1, 2, 3]) ∧
    idInvariant (uA.tick rA).1 ∧
    idInvariant (uA.set_operator [1]) ∧
    idInvariant (uA.clear_operator [1] (fun _ => 1)) ∧
    idInvariant (uA.disrupt_cell 2 (fun _ => 1)) ∧
    idInvariant (uA.observe_cell 0) :=
  ⟨C10_thm.1 [2, 2] 1 (fun _ _ => 1) [0, 1, 2, 3],
   C10_thm.2.1 uA rA (by decide),
   C10_thm.2.2.1 uA [1] (by decide),
   C10_thm.2.2.2.1 uA [1] (fun _ => 1) (by decide),
   C10_thm.2.2.2.2.1 uA 2 (fun _ => 1) (by decide),
   C10_thm.2.2.2.2.2 uA 0 (by decide)⟩
